import Mathlib

/-!
Verification development for the thread manager (`src/kern/thread.c`) and the
generic I/O layer (`io.c`) of a small RISC-V teaching operating system.

Definitions are shallow embeddings of the C source: pure functions become Lean
functions, the scheduler becomes explicit state passing over a `Sched` record,
kernel panics and failed assertions become `Option.none` (a panic halts the
machine and never returns to the caller).
-/

set_option maxHeartbeats 1000000

/-- Modelled from the spec: `error.h` is not part of the sources; the spec says
error codes are positive integers returned negated (`-EINVAL`, `-ENOTSUP`).
The concrete numeral is not relied upon by any theorem. -/
def EINVAL : Int := 22

/-- Modelled from the spec: `error.h` is not part of the sources; `ENOTSUP` is
a positive integer returned negated. The concrete numeral is not relied upon
by any theorem. -/
def ENOTSUP : Int := 95

/-- Modelled from the spec: 4 KiB pages (`PAGE_SIZE` in `memory.h`, which is
not part of the sources). -/
def PAGE_SIZE : Int := 4096

/-- `NTHR` from `thread.c`: maximum number of threads (default 16). -/
def NTHR : Nat := 16

/- ### In-memory literal I/O object (`io.c`: `struct io_lit`) -/

/-- The fields of `struct io_lit` that its operations touch: the backing
memory (`buf`, one `Int` per byte), the device size, and the position. -/
structure IoLit where
  buf : List Int
  size : Nat
  pos : Nat
deriving Repr, DecidableEq

/-- `io_lit_read` from `io.c`. Returns the C return value, the bytes
transferred out of the backing buffer (the `memcpy` source region), and the
updated `io_lit`. -/
def io_lit_read (lit : IoLit) (bufsz : Nat) : Int × List Int × IoLit :=
  if lit.pos ≥ lit.size then
    (-EINVAL, [], lit)
  else
    let bytes_to_read := if lit.pos + bufsz > lit.size then lit.size - lit.pos else bufsz
    let data := (lit.buf.drop lit.pos).take bytes_to_read
    (0, data, { lit with pos := lit.pos + bytes_to_read })

/-- `io_lit_write` from `io.c`. Returns the C return value, the number of
bytes transferred into the backing buffer (the `memcpy` length), and the
updated `io_lit` with those bytes stored. -/
def io_lit_write (lit : IoLit) (data : List Int) (n : Nat) : Int × Nat × IoLit :=
  if lit.pos ≥ lit.size then
    (-EINVAL, 0, lit)
  else
    let bytes_to_write := if lit.pos + n > lit.size then lit.size - lit.pos else n
    let newbuf := lit.buf.take lit.pos ++ data.take bytes_to_write ++ lit.buf.drop (lit.pos + bytes_to_write)
    (0, bytes_to_write, { lit with buf := newbuf, pos := lit.pos + bytes_to_write })

/-- The `ioctl` commands of `io.h` handled by `io_lit_ioctl`. Numeric command
values are irrelevant to the behavior; the constructors mirror the `case`
labels of the `switch`. -/
inductive IoctlCmd
  | GETLEN
  | SETPOS (newpos : Nat)
  | GETPOS
  | GETBLKSZ
  | OTHER (cmd : Int)
deriving Repr, DecidableEq

/-- `io_lit_ioctl` from `io.c`. Returns the C return value, the value stored
through `arg` (for the `GET*` commands), and the updated `io_lit`. -/
def io_lit_ioctl (lit : IoLit) (cmd : IoctlCmd) : Int × Option Nat × IoLit :=
  match cmd with
  | .GETLEN => (0, some lit.size, lit)
  | .SETPOS newpos => (0, none, { lit with pos := newpos })
  | .GETPOS => (0, some lit.pos, lit)
  | .GETBLKSZ => (0, some 4096, lit)
  | .OTHER _ => (-1, none, lit)

/- ### Generic I/O helpers (`io.c`: `ioread_full`, `iowrite`) -/

/-- The `while (acc < bufsz)` loop of `ioread_full` in `io.c`. The backing
`io->ops->read` is modelled as a step function `step` over an arbitrary
device state `σ`; each call receives the requested length `bufsz - acc` and
returns the byte count `cnt` together with the next device state. -/
def ioread_full_loop {σ : Type} (step : σ → Int → Int × σ) (st : σ) (bufsz acc : Int) : Int :=
  if _h : acc < bufsz then
    if _h1 : (step st (bufsz - acc)).1 < 0 then (step st (bufsz - acc)).1
    else if _h2 : (step st (bufsz - acc)).1 = 0 then acc
    else ioread_full_loop step (step st (bufsz - acc)).2 bufsz (acc + (step st (bufsz - acc)).1)
  else acc
termination_by (bufsz - acc).toNat
decreasing_by omega

/-- `ioread_full` from `io.c`: `none` for `readOp` models
`io->ops->read == NULL`. -/
def ioread_full {σ : Type} (readOp : Option (σ → Int → Int × σ)) (st : σ) (bufsz : Int) : Int :=
  match readOp with
  | none => -ENOTSUP
  | some step => ioread_full_loop step st bufsz 0

/-- The `while (acc < n)` loop of `iowrite` in `io.c`; the backing
`io->ops->write` is the step function `step`. -/
def iowrite_loop {σ : Type} (step : σ → Int → Int × σ) (st : σ) (n acc : Int) : Int :=
  if _h : acc < n then
    if _h1 : (step st (n - acc)).1 < 0 then (step st (n - acc)).1
    else if _h2 : (step st (n - acc)).1 = 0 then acc
    else iowrite_loop step (step st (n - acc)).2 n (acc + (step st (n - acc)).1)
  else acc
termination_by (n - acc).toNat
decreasing_by omega

/-- `iowrite` from `io.c`: `none` for `writeOp` models
`io->ops->write == NULL`. -/
def iowrite {σ : Type} (writeOp : Option (σ → Int → Int × σ)) (st : σ) (n : Int) : Int :=
  match writeOp with
  | none => -ENOTSUP
  | some step => iowrite_loop step st n 0

/- ### Thread manager (`thread.c`) -/

/-- `enum thread_state` from `thread.c`. -/
inductive TState
  | UNINITIALIZED
  | STOPPED
  | WAITING
  | RUNNING
  | READY
  | EXITED
deriving Repr, DecidableEq

/-- Pointwise update of a table, used for `thrtab[i] = v` style assignments. -/
def upd {α : Type} (f : Nat → α) (i : Nat) (v : α) : Nat → α :=
  fun j => if j = i then v else f j

/-- The free-slot search loop shared by `thread_spawn` and
`thread_fork_to_user` in `thread.c`: starting at index `i`, scan `n` slots and
return the first index at which `occ` is `false` (a `NULL` `thrtab` entry), or
`i + n` when all `n` slots are occupied. -/
def scanFree (occ : Nat → Bool) (i : Nat) : Nat → Nat
  | 0 => i
  | n + 1 => if occ i then scanFree occ (i + 1) n else i

/-- The scheduler state of `thread.c`: the state recorded in each
`struct thread` (`thrtab` slot `t` is `NULL` iff `thrState t = UNINITIALIZED`
in this model), each thread's `parent` pointer (`none` = `NULL`), each
thread's `wait_cond` pointer, the current thread (`tp` register / `CURTHR`),
the ready-to-run list, and the wait list of every condition variable.
Condition variables are keyed by `Nat`; the `child_exit` condition of thread
`t` is keyed by `t` itself. -/
structure Sched where
  thrState : Nat → TState
  parent : Nat → Option Nat
  waitCondOf : Nat → Option Nat
  cur : Nat
  ready : List Nat
  waitList : Nat → List Nat

/-- Slot occupancy test used by the free-slot search: `thrtab[t] != NULL`. -/
def Sched.occ (s : Sched) : Nat → Bool :=
  fun t => decide (s.thrState t ≠ TState.UNINITIALIZED)

/-- `thread_spawn` from `thread.c`, state effect. The search
`tid = 0; while (++tid < NTHR) if (thrtab[tid] == NULL) break;` is
`scanFree s.occ 1 (NTHR - 1)`; `tid == NTHR` means `panic("Too many threads")`,
modelled as `none`. On success the new thread is `READY`, its parent is the
current thread, and it is appended (`tlinsert`) to the tail of the ready
list. -/
def thread_spawn (s : Sched) : Option Sched :=
  let tid := scanFree s.occ 1 (NTHR - 1)
  if tid = NTHR then
    none
  else
    some { s with
      thrState := upd s.thrState tid TState.READY,
      parent := upd s.parent tid (some s.cur),
      ready := s.ready ++ [tid] }

/-- The value `thread_spawn` delivers to its caller: `Except.error` models a
panic (which halts the machine and never returns), `Except.ok tid` a normal
return of the new thread id. -/
def thread_spawn_ret (s : Sched) : Except String Nat :=
  let tid := scanFree s.occ 1 (NTHR - 1)
  if tid = NTHR then
    Except.error "Too many threads"
  else
    Except.ok tid

/-- `suspend_self` from `thread.c`. `assert (!tlempty(&ready_list))` and
`assert(next_thread->state == THREAD_READY)` become `none` on failure.
`tlremove` pops the ready-list head; the head thread is marked `RUNNING`; if
the suspending thread is still `RUNNING` it is marked `READY` and appended
(`tlinsert`) at the tail; `_thread_swtch(next)` makes `next` the current
thread. -/
def suspend_self (s : Sched) : Option Sched :=
  match s.ready with
  | [] => none
  | next :: rest =>
    if s.thrState next = TState.READY then
      if upd s.thrState next TState.RUNNING s.cur = TState.RUNNING then
        some { s with
          thrState := upd (upd s.thrState next TState.RUNNING) s.cur TState.READY,
          ready := rest ++ [s.cur],
          cur := next }
      else
        some { s with
          thrState := upd s.thrState next TState.RUNNING,
          ready := rest,
          cur := next }
    else none

/-- `thread_yield` from `thread.c`:
`assert (CURTHR->state == THREAD_RUNNING); suspend_self();`. -/
def thread_yield (s : Sched) : Option Sched :=
  if s.thrState s.cur = TState.RUNNING then suspend_self s else none

/-- `condition_broadcast` from `thread.c`. Empty wait list: return with no
change. Otherwise every waiter must pass
`assert (thr->state == THREAD_WAITING)` and `assert (thr->wait_cond == cond)`
(else `none`); each is marked `READY` with `wait_cond = NULL`; `tlappend`
splices the wait list onto the tail of the ready list and `tlclear` empties
the wait list. -/
def condition_broadcast (s : Sched) (c : Nat) : Option Sched :=
  match s.waitList c with
  | [] => some s
  | _ :: _ =>
    if (∀ t ∈ s.waitList c, s.thrState t = TState.WAITING ∧ s.waitCondOf t = some c) then
      some { s with
        thrState := fun t => if t ∈ s.waitList c then TState.READY else s.thrState t,
        waitCondOf := fun t => if t ∈ s.waitList c then none else s.waitCondOf t,
        ready := s.ready ++ s.waitList c,
        waitList := upd s.waitList c [] }
    else none

/-- `condition_wait` from `thread.c`:
`assert(CURTHR->state == THREAD_RUNNING)`; the current thread becomes
`WAITING` with `wait_cond = cond` and is appended (`tlinsert`) to the
condition's wait list; then `suspend_self`. -/
def condition_wait (s : Sched) (c : Nat) : Option Sched :=
  if s.thrState s.cur = TState.RUNNING then
    suspend_self { s with
      thrState := upd s.thrState s.cur TState.WAITING,
      waitCondOf := upd s.waitCondOf s.cur (some c),
      waitList := upd s.waitList c (s.waitList c ++ [s.cur]) }
  else none

/-- `thread_exit` from `thread.c`. For the main thread (`MAIN_TID = 0`) the
call halts (`halt_success`), modelled as `none`; otherwise the current thread
becomes `EXITED`, `assert(CURTHR->parent != NULL)` is checked, the parent's
`child_exit` condition (keyed by the parent's tid) is broadcast, and
`suspend_self` runs. -/
def thread_exit (s : Sched) : Option Sched :=
  if s.cur = 0 then none
  else
    let s1 : Sched := { s with thrState := upd s.thrState s.cur TState.EXITED }
    match s1.parent s1.cur with
    | none => none
    | some p =>
      match condition_broadcast s1 p with
      | none => none
      | some s2 => suspend_self s2

/-- The scheduler state established by `thread_init` in `thread.c`: the main
thread (tid 0, no parent) is `RUNNING` and current, the idle thread
(tid `NTHR - 1`, parent main) is `READY` and is the sole element of the ready
list, every other slot is free, and every condition wait list is empty. -/
def initSched : Sched where
  thrState := fun t =>
    if t = 0 then TState.RUNNING
    else if t = NTHR - 1 then TState.READY
    else TState.UNINITIALIZED
  parent := fun t => if t = NTHR - 1 then some 0 else none
  waitCondOf := fun _ => none
  cur := 0
  ready := [NTHR - 1]
  waitList := fun _ => []

/-- One scheduler operation, as listed in the spec's reachable-state
invariant: `thread_spawn`, `thread_yield`, `thread_exit`, `condition_wait`,
`condition_broadcast`, or a bare `suspend_self`. -/
inductive Step : Sched → Sched → Prop
  | spawn {s s'} : thread_spawn s = some s' → Step s s'
  | yield {s s'} : thread_yield s = some s' → Step s s'
  | exit {s s'} : thread_exit s = some s' → Step s s'
  | cwait {s s' c} : condition_wait s c = some s' → Step s s'
  | cbroadcast {s s' c} : condition_broadcast s c = some s' → Step s s'
  | suspend {s s'} : suspend_self s = some s' → Step s s'

/-- Scheduler states reachable from the initialized state. -/
inductive Reach : Sched → Prop
  | init : Reach initSched
  | step {s s'} : Reach s → Step s s' → Reach s'

/- ### Helper lemmas -/

@[simp]
theorem upd_same {α : Type} (f : Nat → α) (i : Nat) (v : α) : upd f i v i = v := by
  simp [upd]

theorem upd_ne {α : Type} (f : Nat → α) (i : Nat) (v : α) {j : Nat} (h : j ≠ i) :
    upd f i v j = f j := by
  simp [upd, h]

theorem scanFree_ge (occ : Nat → Bool) (n : Nat) : ∀ i, i ≤ scanFree occ i n := by
  induction n with
  | zero => intro i; simp [scanFree]
  | succ n ih =>
    intro i
    simp only [scanFree]
    split
    · exact le_trans (Nat.le_succ i) (ih (i + 1))
    · exact le_refl i

theorem scanFree_le (occ : Nat → Bool) (n : Nat) : ∀ i, scanFree occ i n ≤ i + n := by
  induction n with
  | zero => intro i; simp [scanFree]
  | succ n ih =>
    intro i
    simp only [scanFree]
    split
    · calc scanFree occ (i + 1) n ≤ (i + 1) + n := ih (i + 1)
        _ = i + (n + 1) := by omega
    · omega

theorem scanFree_found (occ : Nat → Bool) (n : Nat) :
    ∀ i, scanFree occ i n ≠ i + n → occ (scanFree occ i n) = false := by
  induction n with
  | zero => intro i h; simp [scanFree] at h
  | succ n ih =>
    intro i h
    simp only [scanFree] at h ⊢
    split
    · rename_i hocc
      rw [if_pos hocc] at h
      refine ih (i + 1) ?_
      intro he
      exact h (by omega)
    · rename_i hocc
      simpa using hocc

theorem scanFree_min (occ : Nat → Bool) (n : Nat) :
    ∀ i j, i ≤ j → j < scanFree occ i n → occ j = true := by
  induction n with
  | zero =>
    intro i j hij hj
    simp [scanFree] at hj
    omega
  | succ n ih =>
    intro i j hij hj
    simp only [scanFree] at hj
    by_cases hocc : occ i = true
    · rw [if_pos hocc] at hj
      rcases Nat.eq_or_lt_of_le hij with he | hlt
      · exact he ▸ hocc
      · exact ih (i + 1) j hlt hj
    · rw [if_neg hocc] at hj
      omega

theorem scanFree_exists (occ : Nat → Bool) (n : Nat) (i t : Nat)
    (hit : i ≤ t) (htn : t < i + n) (hocc : occ t = false) :
    scanFree occ i n < i + n := by
  rcases Nat.lt_or_ge (scanFree occ i n) (i + n) with h | h
  · exact h
  · have heq : scanFree occ i n = i + n := le_antisymm (scanFree_le occ n i) h
    have := scanFree_min occ n i t hit (heq ▸ htn)
    rw [hocc] at this
    exact absurd this (by simp)

/- ### Scheduler invariant -/

/-- The part of the scheduler invariant that holds even between marking the
current thread `WAITING`/`EXITED` and the subsequent `suspend_self`: any
`RUNNING` thread is the current one, the current thread is not `READY`, the
ready list holds exactly the `READY` threads without duplicates, and the
condition wait lists hold exactly the `WAITING` threads, without duplicates
and consistently with their `wait_cond` fields. -/
structure PreInv (s : Sched) : Prop where
  uniqueRun : ∀ t, s.thrState t = TState.RUNNING → t = s.cur
  curNotReady : s.thrState s.cur ≠ TState.READY
  readyNodup : s.ready.Nodup
  readyState : ∀ t ∈ s.ready, s.thrState t = TState.READY
  readyComplete : ∀ t, s.thrState t = TState.READY → t ∈ s.ready
  waitNodup : ∀ c, (s.waitList c).Nodup
  waitState : ∀ c, ∀ t ∈ s.waitList c, s.thrState t = TState.WAITING
  waitCondEq : ∀ c, ∀ t ∈ s.waitList c, s.waitCondOf t = some c
  waitComplete : ∀ t, s.thrState t = TState.WAITING → ∃ c, t ∈ s.waitList c

/-- The full scheduler invariant at operation boundaries: `PreInv` plus the
fact that the current thread is `RUNNING` (hence exactly one thread is
`RUNNING`). -/
def SchedInv (s : Sched) : Prop := PreInv s ∧ s.thrState s.cur = TState.RUNNING

theorem suspend_pres {s s' : Sched} (hp : PreInv s) (h : suspend_self s = some s') :
    SchedInv s' := by
  unfold suspend_self at h
  split at h
  · exact absurd h (by simp)
  rename_i next rest hready
  by_cases hnext : s.thrState next = TState.READY
  case neg => rw [if_neg hnext] at h; exact absurd h (by simp)
  rw [if_pos hnext] at h
  have hnextrest : next ∉ rest := by
    have := hp.readyNodup
    rw [hready] at this
    exact (List.nodup_cons.mp this).1
  have hrestnodup : rest.Nodup := by
    have := hp.readyNodup
    rw [hready] at this
    exact (List.nodup_cons.mp this).2
  have hnextne : next ≠ s.cur := by
    intro he
    exact hp.curNotReady (he ▸ hnext)
  by_cases hcur : upd s.thrState next TState.RUNNING s.cur = TState.RUNNING
  · -- the suspending thread is still RUNNING: it is demoted to READY and
    -- appended at the ready-list tail
    rw [if_pos hcur] at h
    have hcurrun : s.thrState s.cur = TState.RUNNING := by
      rw [upd_ne _ _ _ (Ne.symm hnextne)] at hcur
      exact hcur
    have hcurmem : s.cur ∉ s.ready := by
      intro hm
      have := hp.readyState s.cur hm
      rw [hcurrun] at this
      exact absurd this (by simp)
    have hcurrest : s.cur ∉ rest := fun hm => hcurmem (by rw [hready]; exact List.mem_cons_of_mem _ hm)
    cases h
    constructor
    · constructor
      · -- uniqueRun
        intro t ht
        simp only at ht
        by_cases htc : t = s.cur
        · rw [htc, upd_same] at ht
          exact absurd ht (by simp)
        · rw [upd_ne _ _ _ htc] at ht
          by_cases htn : t = next
          · exact htn
          · rw [upd_ne _ _ _ htn] at ht
            exact absurd (hp.uniqueRun t ht) htc
      · -- curNotReady
        simp only
        rw [upd_ne _ _ _ hnextne, upd_same]
        simp
      · -- readyNodup
        simp only
        refine List.nodup_append.mpr ⟨hrestnodup, List.nodup_singleton _, ?_⟩
        intro a ha hb
        have : a = s.cur := by simpa using hb
        exact hcurrest (this ▸ ha)
      · -- readyState
        intro t ht
        simp only at ht ⊢
        rcases List.mem_append.mp ht with hm | hm
        · have htn : t ≠ next := fun he => hnextrest (he ▸ hm)
          have htc : t ≠ s.cur := fun he => hcurrest (he ▸ hm)
          rw [upd_ne _ _ _ htc, upd_ne _ _ _ htn]
          exact hp.readyState t (by rw [hready]; exact List.mem_cons_of_mem _ hm)
        · have : t = s.cur := by simpa using hm
          rw [this, upd_same]
      · -- readyComplete
        intro t ht
        simp only at ht ⊢
        by_cases htc : t = s.cur
        · simp [htc]
        · rw [upd_ne _ _ _ htc] at ht
          by_cases htn : t = next
          · rw [htn, upd_same] at ht
            exact absurd ht (by simp)
          · rw [upd_ne _ _ _ htn] at ht
            have := hp.readyComplete t ht
            rw [hready] at this
            rcases List.mem_cons.mp this with he | hm
            · exact absurd he htn
            · exact List.mem_append.mpr (Or.inl hm)
      · -- waitNodup
        intro c
        exact hp.waitNodup c
      · -- waitState
        intro c t ht
        simp only at ht ⊢
        have hw := hp.waitState c t ht
        have htc : t ≠ s.cur := by
          intro he
          rw [he, hcurrun] at hw
          exact absurd hw (by simp)
        have htn : t ≠ next := by
          intro he
          rw [he, hnext] at hw
          exact absurd hw (by simp)
        rw [upd_ne _ _ _ htc, upd_ne _ _ _ htn]
        exact hw
      · -- waitCondEq
        intro c t ht
        exact hp.waitCondEq c t ht
      · -- waitComplete
        intro t ht
        simp only at ht
        by_cases htc : t = s.cur
        · rw [htc, upd_same] at ht
          exact absurd ht (by simp)
        · rw [upd_ne _ _ _ htc] at ht
          by_cases htn : t = next
          · rw [htn, upd_same] at ht
            exact absurd ht (by simp)
          · rw [upd_ne _ _ _ htn] at ht
            exact hp.waitComplete t ht
    · -- the new current thread is RUNNING
      simp only
      rw [upd_ne _ _ _ hnextne, upd_same]
  · -- the suspending thread is no longer RUNNING: it is not re-enqueued
    rw [if_neg hcur] at h
    have hcurnotrun : s.thrState s.cur ≠ TState.RUNNING := by
      intro he
      exact hcur (by rw [upd_ne _ _ _ (Ne.symm hnextne)]; exact he)
    cases h
    constructor
    · constructor
      · -- uniqueRun
        intro t ht
        simp only at ht
        by_cases htn : t = next
        · exact htn
        · rw [upd_ne _ _ _ htn] at ht
          exact absurd (hp.uniqueRun t ht ▸ ht) hcurnotrun
      · -- curNotReady
        simp only
        rw [upd_same]
        simp
      · -- readyNodup
        simp only
        exact hrestnodup
      · -- readyState
        intro t ht
        simp only at ht ⊢
        have htn : t ≠ next := fun he => hnextrest (he ▸ ht)
        rw [upd_ne _ _ _ htn]
        exact hp.readyState t (by rw [hready]; exact List.mem_cons_of_mem _ ht)
      · -- readyComplete
        intro t ht
        simp only at ht ⊢
        by_cases htn : t = next
        · rw [htn, upd_same] at ht
          exact absurd ht (by simp)
        · rw [upd_ne _ _ _ htn] at ht
          have := hp.readyComplete t ht
          rw [hready] at this
          rcases List.mem_cons.mp this with he | hm
          · exact absurd he htn
          · exact hm
      · -- waitNodup
        intro c
        exact hp.waitNodup c
      · -- waitState
        intro c t ht
        simp only at ht ⊢
        have hw := hp.waitState c t ht
        have htn : t ≠ next := by
          intro he
          rw [he, hnext] at hw
          exact absurd hw (by simp)
        rw [upd_ne _ _ _ htn]
        exact hw
      · -- waitCondEq
        intro c t ht
        exact hp.waitCondEq c t ht
      · -- waitComplete
        intro t ht
        simp only at ht
        by_cases htn : t = next
        · rw [htn, upd_same] at ht
          exact absurd ht (by simp)
        · rw [upd_ne _ _ _ htn] at ht
          exact hp.waitComplete t ht
    · -- the new current thread is RUNNING
      simp only
      rw [upd_same]

theorem spawn_pres {s s' : Sched} (hi : SchedInv s) (h : thread_spawn s = some s') :
    SchedInv s' := by
  obtain ⟨hp, hrun⟩ := hi
  unfold thread_spawn at h
  simp only at h
  by_cases htid : scanFree s.occ 1 (NTHR - 1) = NTHR
  · rw [if_pos htid] at h
    exact absurd h (by simp)
  rw [if_neg htid] at h
  set tid := scanFree s.occ 1 (NTHR - 1) with htiddef
  have htidge : 1 ≤ tid := scanFree_ge s.occ (NTHR - 1) 1
  have htidfree : s.occ tid = false := by
    refine scanFree_found s.occ (NTHR - 1) 1 ?_
    intro he
    exact htid (by rw [← htiddef] at he; rw [he]; rfl)
  have htiduninit : s.thrState tid = TState.UNINITIALIZED := by
    have := htidfree
    unfold Sched.occ at this
    simpa using this
  have htidcur : tid ≠ s.cur := by
    intro he
    rw [he, hrun] at htiduninit
    exact absurd htiduninit (by simp)
  have htidready : tid ∉ s.ready := by
    intro hm
    have := hp.readyState tid hm
    rw [htiduninit] at this
    exact absurd this (by simp)
  cases h
  constructor
  · constructor
    · -- uniqueRun
      intro t ht
      simp only at ht
      by_cases htt : t = tid
      · rw [htt, upd_same] at ht
        exact absurd ht (by simp)
      · rw [upd_ne _ _ _ htt] at ht
        exact hp.uniqueRun t ht
    · -- curNotReady
      simp only
      rw [upd_ne _ _ _ (Ne.symm htidcur), hrun]
      simp
    · -- readyNodup
      simp only
      refine List.nodup_append.mpr ⟨hp.readyNodup, List.nodup_singleton _, ?_⟩
      intro a ha hb
      have : a = tid := by simpa using hb
      exact htidready (this ▸ ha)
    · -- readyState
      intro t ht
      simp only at ht ⊢
      rcases List.mem_append.mp ht with hm | hm
      · have htt : t ≠ tid := fun he => htidready (he ▸ hm)
        rw [upd_ne _ _ _ htt]
        exact hp.readyState t hm
      · have : t = tid := by simpa using hm
        rw [this, upd_same]
    · -- readyComplete
      intro t ht
      simp only at ht ⊢
      by_cases htt : t = tid
      · simp [htt]
      · rw [upd_ne _ _ _ htt] at ht
        exact List.mem_append.mpr (Or.inl (hp.readyComplete t ht))
    · -- waitNodup
      intro c
      exact hp.waitNodup c
    · -- waitState
      intro c t ht
      simp only at ht ⊢
      have hw := hp.waitState c t ht
      have htt : t ≠ tid := by
        intro he
        rw [he, htiduninit] at hw
        exact absurd hw (by simp)
      rw [upd_ne _ _ _ htt]
      exact hw
    · -- waitCondEq
      intro c t ht
      exact hp.waitCondEq c t ht
    · -- waitComplete
      intro t ht
      simp only at ht
      by_cases htt : t = tid
      · rw [htt, upd_same] at ht
        exact absurd ht (by simp)
      · rw [upd_ne _ _ _ htt] at ht
        exact hp.waitComplete t ht
  · -- current thread still RUNNING
    simp only
    rw [upd_ne _ _ _ (Ne.symm htidcur)]
    exact hrun

theorem broadcast_pres {s s' : Sched} {c : Nat} (hp : PreInv s)
    (hcw : s.thrState s.cur ≠ TState.WAITING)
    (h : condition_broadcast s c = some s') :
    PreInv s' ∧ s'.cur = s.cur ∧ s'.thrState s.cur = s.thrState s.cur := by
  unfold condition_broadcast at h
  split at h
  · -- empty wait list: no change
    rename_i hempty
    cases h
    exact ⟨hp, rfl, rfl⟩
  rename_i t0 l0 hwl
  by_cases hall : ∀ t ∈ s.waitList c, s.thrState t = TState.WAITING ∧ s.waitCondOf t = some c
  case neg => rw [if_neg hall] at h; exact absurd h (by simp)
  rw [if_pos hall] at h
  have hmemw : ∀ t, t ∈ s.waitList c → s.thrState t = TState.WAITING := fun t ht => (hall t ht).1
  have hcurnm : s.cur ∉ s.waitList c := fun hm => hcw (hmemw _ hm)
  have hdisj : ∀ t, t ∈ s.ready → t ∉ s.waitList c := by
    intro t htr htw
    have h1 := hp.readyState t htr
    have h2 := hmemw t htw
    rw [h1] at h2
    exact absurd h2 (by simp)
  cases h
  refine ⟨?_, rfl, ?_⟩
  · constructor
    · -- uniqueRun
      intro t ht
      simp only at ht
      by_cases htm : t ∈ s.waitList c
      · rw [if_pos htm] at ht
        exact absurd ht (by simp)
      · rw [if_neg htm] at ht
        exact hp.uniqueRun t ht
    · -- curNotReady
      simp only
      rw [if_neg hcurnm]
      exact hp.curNotReady
    · -- readyNodup
      simp only
      exact List.nodup_append.mpr ⟨hp.readyNodup, hp.waitNodup c, hdisj⟩
    · -- readyState
      intro t ht
      simp only at ht ⊢
      rcases List.mem_append.mp ht with hm | hm
      · rw [if_neg (hdisj t hm)]
        exact hp.readyState t hm
      · rw [if_pos hm]
    · -- readyComplete
      intro t ht
      simp only at ht ⊢
      by_cases htm : t ∈ s.waitList c
      · exact List.mem_append.mpr (Or.inr htm)
      · rw [if_neg htm] at ht
        exact List.mem_append.mpr (Or.inl (hp.readyComplete t ht))
    · -- waitNodup
      intro c'
      simp only
      by_cases hc : c' = c
      · rw [hc, upd_same]
        exact List.nodup_nil
      · rw [upd_ne _ _ _ hc]
        exact hp.waitNodup c'
    · -- waitState
      intro c' t ht
      simp only at ht ⊢
      by_cases hc : c' = c
      · rw [hc, upd_same] at ht
        exact absurd ht (by simp)
      · rw [upd_ne _ _ _ hc] at ht
        have htm : t ∉ s.waitList c := by
          intro hm
          have h1 := hp.waitCondEq c' t ht
          have h2 := (hall t hm).2
          rw [h1] at h2
          exact hc (Option.some.inj h2)
        rw [if_neg htm]
        exact hp.waitState c' t ht
    · -- waitCondEq
      intro c' t ht
      simp only at ht ⊢
      by_cases hc : c' = c
      · rw [hc, upd_same] at ht
        exact absurd ht (by simp)
      · rw [upd_ne _ _ _ hc] at ht
        have htm : t ∉ s.waitList c := by
          intro hm
          have h1 := hp.waitCondEq c' t ht
          have h2 := (hall t hm).2
          rw [h1] at h2
          exact hc (Option.some.inj h2)
        rw [if_neg htm]
        exact hp.waitCondEq c' t ht
    · -- waitComplete
      intro t ht
      simp only at ht
      by_cases htm : t ∈ s.waitList c
      · rw [if_pos htm] at ht
        exact absurd ht (by simp)
      · rw [if_neg htm] at ht
        obtain ⟨c', hc'⟩ := hp.waitComplete t ht
        have hcc : c' ≠ c := fun he => htm (he ▸ hc')
        refine ⟨c', ?_⟩
        simp only
        rw [upd_ne _ _ _ hcc]
        exact hc'
  · -- the current thread's state is untouched
    simp only
    rw [if_neg hcurnm]

theorem yield_pres {s s' : Sched} (hi : SchedInv s) (h : thread_yield s = some s') :
    SchedInv s' := by
  unfold thread_yield at h
  split at h
  · exact suspend_pres hi.1 h
  · exact absurd h (by simp)

theorem cwait_pres {s s' : Sched} {c : Nat} (hi : SchedInv s)
    (h : condition_wait s c = some s') : SchedInv s' := by
  obtain ⟨hp, hrun⟩ := hi
  unfold condition_wait at h
  rw [if_pos hrun] at h
  have hcurready : s.cur ∉ s.ready := by
    intro hm
    have := hp.readyState s.cur hm
    rw [hrun] at this
    exact absurd this (by simp)
  have hcurwl : ∀ c', s.cur ∉ s.waitList c' := by
    intro c' hm
    have := hp.waitState c' s.cur hm
    rw [hrun] at this
    exact absurd this (by simp)
  refine suspend_pres ?_ h
  constructor
  · -- uniqueRun
    intro t ht
    simp only at ht
    by_cases htc : t = s.cur
    · exact htc
    · rw [upd_ne _ _ _ htc] at ht
      exact hp.uniqueRun t ht
  · -- curNotReady
    simp only
    rw [upd_same]
    simp
  · -- readyNodup
    exact hp.readyNodup
  · -- readyState
    intro t ht
    simp only at ht ⊢
    have htc : t ≠ s.cur := fun he => hcurready (he ▸ ht)
    rw [upd_ne _ _ _ htc]
    exact hp.readyState t ht
  · -- readyComplete
    intro t ht
    simp only at ht ⊢
    by_cases htc : t = s.cur
    · rw [htc, upd_same] at ht
      exact absurd ht (by simp)
    · rw [upd_ne _ _ _ htc] at ht
      exact hp.readyComplete t ht
  · -- waitNodup
    intro c'
    simp only
    by_cases hc : c' = c
    · rw [hc, upd_same]
      refine List.nodup_append.mpr ⟨hp.waitNodup c, List.nodup_singleton _, ?_⟩
      intro a ha hb
      have : a = s.cur := by simpa using hb
      exact hcurwl c (this ▸ ha)
    · rw [upd_ne _ _ _ hc]
      exact hp.waitNodup c'
  · -- waitState
    intro c' t ht
    simp only at ht ⊢
    by_cases hc : c' = c
    · rw [hc, upd_same] at ht
      rcases List.mem_append.mp ht with hm | hm
      · have htc : t ≠ s.cur := fun he => hcurwl c (he ▸ hm)
        rw [upd_ne _ _ _ htc]
        exact hp.waitState c t hm
      · have : t = s.cur := by simpa using hm
        rw [this, upd_same]
    · rw [upd_ne _ _ _ hc] at ht
      have htc : t ≠ s.cur := fun he => hcurwl c' (he ▸ ht)
      rw [upd_ne _ _ _ htc]
      exact hp.waitState c' t ht
  · -- waitCondEq
    intro c' t ht
    simp only at ht ⊢
    by_cases hc : c' = c
    · rw [hc, upd_same] at ht
      rcases List.mem_append.mp ht with hm | hm
      · have htc : t ≠ s.cur := fun he => hcurwl c (he ▸ hm)
        rw [upd_ne _ _ _ htc, hc]
        exact hp.waitCondEq c t hm
      · have : t = s.cur := by simpa using hm
        rw [this, upd_same, hc]
    · rw [upd_ne _ _ _ hc] at ht
      have htc : t ≠ s.cur := fun he => hcurwl c' (he ▸ ht)
      rw [upd_ne _ _ _ htc]
      exact hp.waitCondEq c' t ht
  · -- waitComplete
    intro t ht
    simp only at ht ⊢
    by_cases htc : t = s.cur
    · refine ⟨c, ?_⟩
      rw [upd_same]
      exact List.mem_append.mpr (Or.inr (by simp [htc]))
    · rw [upd_ne _ _ _ htc] at ht
      obtain ⟨c', hc'⟩ := hp.waitComplete t ht
      refine ⟨c', ?_⟩
      by_cases hc : c' = c
      · rw [hc, upd_same]
        exact List.mem_append.mpr (Or.inl (hc ▸ hc'))
      · rw [upd_ne _ _ _ hc]
        exact hc'

theorem exit_pres {s s' : Sched} (hi : SchedInv s) (h : thread_exit s = some s') :
    SchedInv s' := by
  obtain ⟨hp, hrun⟩ := hi
  unfold thread_exit at h
  split at h
  · exact absurd h (by simp)
  rename_i hcur0
  simp only at h
  have hcurready : s.cur ∉ s.ready := by
    intro hm
    have := hp.readyState s.cur hm
    rw [hrun] at this
    exact absurd this (by simp)
  have hcurwl : ∀ c', s.cur ∉ s.waitList c' := by
    intro c' hm
    have := hp.waitState c' s.cur hm
    rw [hrun] at this
    exact absurd this (by simp)
  have hp1 : PreInv { s with thrState := upd s.thrState s.cur TState.EXITED } := by
    constructor
    · intro t ht
      simp only at ht
      by_cases htc : t = s.cur
      · exact htc
      · rw [upd_ne _ _ _ htc] at ht
        exact hp.uniqueRun t ht
    · simp only
      rw [upd_same]
      simp
    · exact hp.readyNodup
    · intro t ht
      simp only at ht ⊢
      have htc : t ≠ s.cur := fun he => hcurready (he ▸ ht)
      rw [upd_ne _ _ _ htc]
      exact hp.readyState t ht
    · intro t ht
      simp only at ht ⊢
      by_cases htc : t = s.cur
      · rw [htc, upd_same] at ht
        exact absurd ht (by simp)
      · rw [upd_ne _ _ _ htc] at ht
        exact hp.readyComplete t ht
    · intro c'
      exact hp.waitNodup c'
    · intro c' t ht
      simp only at ht ⊢
      have htc : t ≠ s.cur := fun he => hcurwl c' (he ▸ ht)
      rw [upd_ne _ _ _ htc]
      exact hp.waitState c' t ht
    · intro c' t ht
      exact hp.waitCondEq c' t ht
    · intro t ht
      simp only at ht
      by_cases htc : t = s.cur
      · rw [htc, upd_same] at ht
        exact absurd ht (by simp)
      · rw [upd_ne _ _ _ htc] at ht
        exact hp.waitComplete t ht
  split at h
  · exact absurd h (by simp)
  rename_i p hparent
  split at h
  · exact absurd h (by simp)
  rename_i s2 hbc
  have hexited : ({ s with thrState := upd s.thrState s.cur TState.EXITED } : Sched).thrState s.cur = TState.EXITED := by
    simp only
    rw [upd_same]
  obtain ⟨hp2, hcur2, hst2⟩ := broadcast_pres hp1 (by rw [hexited]; simp) hbc
  exact suspend_pres hp2 h

theorem step_pres {s s' : Sched} (hi : SchedInv s) (h : Step s s') : SchedInv s' := by
  cases h with
  | spawn h => exact spawn_pres hi h
  | yield h => exact yield_pres hi h
  | exit h => exact exit_pres hi h
  | cwait h => exact cwait_pres hi h
  | cbroadcast h =>
    obtain ⟨hp2, hcur2, hst2⟩ := broadcast_pres hi.1 (by rw [hi.2]; simp) h
    refine ⟨hp2, ?_⟩
    rw [hcur2, hst2, hi.2]
  | suspend h => exact suspend_pres hi.1 h

theorem initSched_inv : SchedInv initSched := by
  constructor
  · constructor
    · intro t ht
      simp only [initSched] at ht
      by_cases h0 : t = 0
      · exact h0
      · rw [if_neg h0] at ht
        by_cases h15 : t = NTHR - 1
        · rw [if_pos h15] at ht
          exact absurd ht (by simp)
        · rw [if_neg h15] at ht
          exact absurd ht (by simp)
    · simp [initSched, NTHR]
    · simp [initSched]
    · intro t ht
      simp only [initSched, NTHR] at ht ⊢
      have : t = 15 := by simpa using ht
      simp [this]
    · intro t ht
      simp only [initSched, NTHR] at ht ⊢
      by_cases h0 : t = 0
      · rw [if_pos h0] at ht
        exact absurd ht (by simp)
      · rw [if_neg h0] at ht
        by_cases h15 : t = 15
        · simp [h15]
        · rw [if_neg h15] at ht
          exact absurd ht (by simp)
    · intro c
      simp [initSched]
    · intro c t ht
      simp [initSched] at ht
    · intro c t ht
      simp [initSched] at ht
    · intro t ht
      simp only [initSched, NTHR] at ht
      by_cases h0 : t = 0
      · rw [if_pos h0] at ht
        exact absurd ht (by simp)
      · rw [if_neg h0] at ht
        by_cases h15 : t = 15
        · rw [if_pos h15] at ht
          exact absurd ht (by simp)
        · rw [if_neg h15] at ht
          exact absurd ht (by simp)
  · simp [initSched]

theorem reach_inv {s : Sched} (h : Reach s) : SchedInv s := by
  induction h with
  | init => exact initSched_inv
  | step _ hstep ih => exact step_pres ih hstep

/-- C4: in every scheduler state reachable from the initialized state through
`thread_spawn`, `thread_yield`, `thread_exit`, `condition_wait`,
`condition_broadcast`, and `suspend_self`, exactly one thread is `RUNNING`,
every `READY` thread appears exactly once in the ready list, and every
`WAITING` thread appears in exactly one condition wait list; preservation by
each operation is the induction step of the proof (`step_pres`). -/
theorem claim_C4_scheduler_invariant (s : Sched) (h : Reach s) :
    (∃ r, s.thrState r = TState.RUNNING ∧ ∀ t, s.thrState t = TState.RUNNING → t = r) ∧
    (∀ t, s.thrState t = TState.READY → List.count t s.ready = 1) ∧
    (∀ t, s.thrState t = TState.WAITING →
      ∃ c, List.count t (s.waitList c) = 1 ∧ ∀ c', t ∈ s.waitList c' → c' = c) := by
  obtain ⟨hp, hrun⟩ := reach_inv h
  refine ⟨⟨s.cur, hrun, hp.uniqueRun⟩, ?_, ?_⟩
  · intro t ht
    exact List.count_eq_one_of_mem hp.readyNodup (hp.readyComplete t ht)
  · intro t ht
    obtain ⟨c, hc⟩ := hp.waitComplete t ht
    refine ⟨c, List.count_eq_one_of_mem (hp.waitNodup c) hc, ?_⟩
    intro c' hc'
    have h1 := hp.waitCondEq c t hc
    have h2 := hp.waitCondEq c' t hc'
    rw [h1] at h2
    exact (Option.some.inj h2).symm

/-- Witness for C4: the claim instantiated at the initialized scheduler
state, which is reachable by `Reach.init`. -/
theorem claim_C4_witness :
    (∃ r, initSched.thrState r = TState.RUNNING ∧
      ∀ t, initSched.thrState t = TState.RUNNING → t = r) ∧
    (∀ t, initSched.thrState t = TState.READY → List.count t initSched.ready = 1) ∧
    (∀ t, initSched.thrState t = TState.WAITING →
      ∃ c, List.count t (initSched.waitList c) = 1 ∧
        ∀ c', t ∈ initSched.waitList c' → c' = c) :=
  claim_C4_scheduler_invariant initSched Reach.init

/-- C6: `condition_broadcast(c)` moves every waiter `t1..tk` of `c` from
`WAITING` to `READY`, clears each waiter's `wait_cond`, appends `t1..tk` in
insertion order to the tail of the ready list, and empties the wait list of
`c`; non-waiters and other conditions are untouched, and an empty wait list
means the call changes nothing. -/
theorem claim_C6_broadcast_order (s : Sched) (c : Nat)
    (hw : ∀ t ∈ s.waitList c, s.thrState t = TState.WAITING ∧ s.waitCondOf t = some c) :
    ∃ s', condition_broadcast s c = some s' ∧
      s'.ready = s.ready ++ s.waitList c ∧
      s'.waitList c = [] ∧
      (∀ t ∈ s.waitList c, s'.thrState t = TState.READY ∧ s'.waitCondOf t = none) ∧
      (∀ t, t ∉ s.waitList c → s'.thrState t = s.thrState t ∧ s'.waitCondOf t = s.waitCondOf t) ∧
      (∀ c', c' ≠ c → s'.waitList c' = s.waitList c') ∧
      (s.waitList c = [] → s' = s) := by
  by_cases hwl : s.waitList c = []
  · refine ⟨s, ?_, by rw [hwl]; simp, hwl, ?_, fun t _ => ⟨rfl, rfl⟩, fun c' _ => rfl, fun _ => rfl⟩
    · simp [condition_broadcast, hwl]
    · intro t ht
      rw [hwl] at ht
      exact absurd ht (by simp)
  · have hcb : condition_broadcast s c = some { s with
        thrState := fun t => if t ∈ s.waitList c then TState.READY else s.thrState t,
        waitCondOf := fun t => if t ∈ s.waitList c then none else s.waitCondOf t,
        ready := s.ready ++ s.waitList c,
        waitList := upd s.waitList c [] } := by
      unfold condition_broadcast
      rcases hl : s.waitList c with _ | ⟨t0, l0⟩
      · exact absurd hl hwl
      · rw [hl] at hw
        simp only [hl]
        rw [if_pos hw]
    refine ⟨_, hcb, rfl, by simp, ?_, ?_, ?_, fun he => absurd he hwl⟩
    · intro t ht
      exact ⟨by simp [ht], by simp [ht]⟩
    · intro t ht
      exact ⟨by simp [ht], by simp [ht]⟩
    · intro c' hc'
      simp only
      rw [upd_ne _ _ _ hc']

/-- Witness for C6: a concrete state with two waiters `3, 5` on condition 7
and thread 9 ready; the broadcast appends `3, 5` behind `9` in order. -/
theorem claim_C6_witness :
    ∃ s', condition_broadcast
        { thrState := fun t => if t = 3 ∨ t = 5 then TState.WAITING
            else if t = 1 then TState.RUNNING
            else if t = 9 then TState.READY else TState.UNINITIALIZED,
          parent := fun _ => none,
          waitCondOf := fun t => if t = 3 ∨ t = 5 then some 7 else none,
          cur := 1,
          ready := [9],
          waitList := fun cc => if cc = 7 then [3, 5] else [] } 7 = some s' ∧
      s'.ready = [9] ++ [3, 5] ∧
      s'.waitList 7 = [] ∧
      (∀ t ∈ [3, 5], s'.thrState t = TState.READY ∧ s'.waitCondOf t = none) := by
  obtain ⟨s', h1, h2, h3, h4, -, -, -⟩ := claim_C6_broadcast_order
    { thrState := fun t => if t = 3 ∨ t = 5 then TState.WAITING
        else if t = 1 then TState.RUNNING
        else if t = 9 then TState.READY else TState.UNINITIALIZED,
      parent := fun _ => none,
      waitCondOf := fun t => if t = 3 ∨ t = 5 then some 7 else none,
      cur := 1,
      ready := [9],
      waitList := fun cc => if cc = 7 then [3, 5] else [] } 7
    (by intro t ht; simp at ht; rcases ht with h | h <;> simp [h])
  exact ⟨s', h1, by simpa using h2, by simpa using h3, by simpa using h4⟩

theorem occ_false_iff (s : Sched) (t : Nat) :
    s.occ t = false ↔ s.thrState t = TState.UNINITIALIZED := by
  simp [Sched.occ]

theorem occ_true_iff (s : Sched) (t : Nat) :
    s.occ t = true ↔ s.thrState t ≠ TState.UNINITIALIZED := by
  simp [Sched.occ]

/-- A scheduler state in which every slot of `thrtab` is occupied. -/
def fullSched : Sched where
  thrState := fun t => if t = 0 then TState.RUNNING else TState.READY
  parent := fun _ => none
  waitCondOf := fun _ => none
  cur := 0
  ready := []
  waitList := fun _ => []

/-- C2 counterexample: with every slot of the thread table occupied,
`thread_spawn` does not return an error value `TOO_MANY_THREADS` to its
caller — it panics (`panic("Too many threads")`, modelled by
`Except.error`, which never returns to the caller) and creates no thread.
No `TOO_MANY_THREADS` error code exists in the sources. -/
theorem claim_C2_counterexample :
    thread_spawn_ret fullSched = Except.error "Too many threads" ∧
    thread_spawn fullSched = none := by
  constructor <;> rfl

/-- C2 amended: when every slot of index `1..NTHR-1` is occupied,
`thread_spawn` panics with message "Too many threads" (it does not return to
its caller) and creates no thread; when at least one such slot is free, it
returns the smallest free index of `1..NTHR-1` as the new thread id, marks
that thread `READY`, and appends it to the ready list. -/
theorem claim_C2_spawn_amended (s : Sched) :
    ((∀ t, 0 < t → t < NTHR → s.thrState t ≠ TState.UNINITIALIZED) →
      thread_spawn_ret s = Except.error "Too many threads" ∧ thread_spawn s = none) ∧
    (∀ tf, 0 < tf → tf < NTHR → s.thrState tf = TState.UNINITIALIZED →
      ∃ tid, thread_spawn_ret s = Except.ok tid ∧
        (∃ s', thread_spawn s = some s' ∧
          s'.thrState tid = TState.READY ∧ s'.ready = s.ready ++ [tid]) ∧
        0 < tid ∧ tid < NTHR ∧ s.thrState tid = TState.UNINITIALIZED ∧
        (∀ u, 0 < u → u < tid → s.thrState u ≠ TState.UNINITIALIZED)) := by
  have hNTHR : (1 : Nat) + (NTHR - 1) = NTHR := by norm_num [NTHR]
  constructor
  · intro hfull
    have hsf : scanFree s.occ 1 (NTHR - 1) = NTHR := by
      by_contra hne
      have hfound := scanFree_found s.occ (NTHR - 1) 1 (by
        intro he
        exact hne (by rw [he, hNTHR]))
      rw [occ_false_iff] at hfound
      have hge := scanFree_ge s.occ (NTHR - 1) 1
      have hle := scanFree_le s.occ (NTHR - 1) 1
      have hlt : scanFree s.occ 1 (NTHR - 1) < NTHR := by omega
      exact hfull (scanFree s.occ 1 (NTHR - 1)) (by omega) hlt hfound
    constructor
    · unfold thread_spawn_ret
      simp only
      rw [if_pos hsf]
    · unfold thread_spawn
      simp only
      rw [if_pos hsf]
  · intro tf htf0 htfN hfree
    have hex : scanFree s.occ 1 (NTHR - 1) < 1 + (NTHR - 1) := by
      refine scanFree_exists s.occ (NTHR - 1) 1 tf htf0 ?_ ?_
      · omega
      · rw [occ_false_iff]
        exact hfree
    have hne : scanFree s.occ 1 (NTHR - 1) ≠ NTHR := by omega
    have hspawn : thread_spawn s = some { s with
        thrState := upd s.thrState (scanFree s.occ 1 (NTHR - 1)) TState.READY,
        parent := upd s.parent (scanFree s.occ 1 (NTHR - 1)) (some s.cur),
        ready := s.ready ++ [scanFree s.occ 1 (NTHR - 1)] } := by
      unfold thread_spawn
      simp only
      rw [if_neg hne]
    refine ⟨scanFree s.occ 1 (NTHR - 1), ?_, ⟨_, hspawn, ?_, rfl⟩, ?_, ?_, ?_, ?_⟩
    · unfold thread_spawn_ret
      simp only
      rw [if_neg hne]
    · simp only
      rw [upd_same]
    · exact scanFree_ge s.occ (NTHR - 1) 1
    · omega
    · have hfound := scanFree_found s.occ (NTHR - 1) 1 (by
        intro he
        exact hne (by rw [he, hNTHR]))
      rw [occ_false_iff] at hfound
      exact hfound
    · intro u hu0 hu
      have := scanFree_min s.occ (NTHR - 1) 1 u hu0 hu
      rw [occ_true_iff] at this
      exact this

/-- A scheduler state with slots 0, 1 and `NTHR - 1` occupied and slot 2 the
smallest free slot. -/
def spawnSched : Sched where
  thrState := fun t =>
    if t = 0 then TState.RUNNING
    else if t = 1 then TState.READY
    else if t = 15 then TState.READY
    else TState.UNINITIALIZED
  parent := fun _ => none
  waitCondOf := fun _ => none
  cur := 0
  ready := [1, 15]
  waitList := fun _ => []

/-- Witness for the amended C2: in `spawnSched`, slot 3 is free, so
`thread_spawn` returns the smallest free slot of index at least 1
(which is 2). -/
theorem claim_C2_witness :
    ∃ tid, thread_spawn_ret spawnSched = Except.ok tid ∧
      (∃ s', thread_spawn spawnSched = some s' ∧
        s'.thrState tid = TState.READY ∧ s'.ready = spawnSched.ready ++ [tid]) ∧
      0 < tid ∧ tid < NTHR ∧ spawnSched.thrState tid = TState.UNINITIALIZED ∧
      (∀ u, 0 < u → u < tid → spawnSched.thrState u ≠ TState.UNINITIALIZED) :=
  (claim_C2_spawn_amended spawnSched).2 3 (by decide) (by decide) (by decide)

theorem ioread_full_loop_le {σ : Type} (step : σ → Int → Int × σ) (bufsz : Int)
    (hstep : ∀ s m, 0 < m → (step s m).1 ≤ m) :
    ∀ (k : Nat) (st : σ) (acc : Int), 0 ≤ acc → acc ≤ bufsz → (bufsz - acc).toNat ≤ k →
      ioread_full_loop step st bufsz acc ≤ bufsz := by
  intro k
  induction k with
  | zero =>
    intro st acc h0 hb hk
    rw [ioread_full_loop]
    rw [dif_neg (by omega)]
    exact hb
  | succ k ih =>
    intro st acc h0 hb hk
    rw [ioread_full_loop]
    by_cases hlt : acc < bufsz
    case neg => rw [dif_neg hlt]; exact hb
    rw [dif_pos hlt]
    by_cases hneg : (step st (bufsz - acc)).1 < 0
    · rw [dif_pos hneg]
      omega
    · rw [dif_neg hneg]
      by_cases hzero : (step st (bufsz - acc)).1 = 0
      · rw [dif_pos hzero]
        exact hb
      · rw [dif_neg hzero]
        have hle : (step st (bufsz - acc)).1 ≤ bufsz - acc := hstep st (bufsz - acc) (by omega)
        exact ih (step st (bufsz - acc)).2 (acc + (step st (bufsz - acc)).1) (by omega) (by omega) (by omega)

theorem ioread_full_loop_full {σ : Type} (step : σ → Int → Int × σ) (bufsz : Int)
    (hstep : ∀ s m, 0 < m → (step s m).1 ≤ m)
    (hpos : ∀ s m, 0 < m → 1 ≤ (step s m).1) :
    ∀ (k : Nat) (st : σ) (acc : Int), 0 ≤ acc → acc ≤ bufsz → (bufsz - acc).toNat ≤ k →
      ioread_full_loop step st bufsz acc = bufsz := by
  intro k
  induction k with
  | zero =>
    intro st acc h0 hb hk
    rw [ioread_full_loop]
    rw [dif_neg (by omega)]
    omega
  | succ k ih =>
    intro st acc h0 hb hk
    rw [ioread_full_loop]
    by_cases hlt : acc < bufsz
    case neg => rw [dif_neg hlt]; omega
    rw [dif_pos hlt]
    have h1 : 1 ≤ (step st (bufsz - acc)).1 := hpos st (bufsz - acc) (by omega)
    rw [dif_neg (by omega), dif_neg (by omega)]
    have hle : (step st (bufsz - acc)).1 ≤ bufsz - acc := hstep st (bufsz - acc) (by omega)
    exact ih (step st (bufsz - acc)).2 (acc + (step st (bufsz - acc)).1) (by omega) (by omega) (by omega)

theorem iowrite_loop_eq_ioread_full_loop {σ : Type} (step : σ → Int → Int × σ) (n : Int) :
    ∀ (k : Nat) (st : σ) (acc : Int), (n - acc).toNat ≤ k →
      iowrite_loop step st n acc = ioread_full_loop step st n acc := by
  intro k
  induction k with
  | zero =>
    intro st acc hk
    rw [iowrite_loop, ioread_full_loop]
    rw [dif_neg (by omega), dif_neg (by omega)]
  | succ k ih =>
    intro st acc hk
    rw [iowrite_loop, ioread_full_loop]
    by_cases hlt : acc < n
    case neg => rw [dif_neg hlt, dif_neg hlt]
    rw [dif_pos hlt, dif_pos hlt]
    by_cases hneg : (step st (n - acc)).1 < 0
    · rw [dif_pos hneg, dif_pos hneg]
    · rw [dif_neg hneg, dif_neg hneg]
      by_cases hzero : (step st (n - acc)).1 = 0
      · rw [dif_pos hzero, dif_pos hzero]
      · rw [dif_neg hzero, dif_neg hzero]
        exact ih (step st (n - acc)).2 (acc + (step st (n - acc)).1) (by omega)

/-- C7: `ioread_full` (resp. `iowrite`) loops until the full requested length
is transferred (under a backing operation that always makes progress, the
result is the full length), a negative backing return is propagated
unchanged, or a zero backing return stops the loop with the bytes accumulated
so far; an absent backing operation yields `-ENOTSUP`; and, for a backing
operation that never transfers more than requested, every non-negative result
is at most the requested length. -/
theorem claim_C7_io_helper_loops {σ τ : Type} (rstep : σ → Int → Int × σ)
    (wstep : τ → Int → Int × τ) (s0 : σ) (t0 : τ) (bufsz n : Int)
    (hb : 0 ≤ bufsz) (hn : 0 ≤ n)
    (hr : ∀ s m, 0 < m → (rstep s m).1 ≤ m)
    (hw : ∀ s m, 0 < m → (wstep s m).1 ≤ m) :
    ioread_full none s0 bufsz = -ENOTSUP ∧
    iowrite none t0 n = -ENOTSUP ∧
    (0 ≤ ioread_full (some rstep) s0 bufsz → ioread_full (some rstep) s0 bufsz ≤ bufsz) ∧
    (0 ≤ iowrite (some wstep) t0 n → iowrite (some wstep) t0 n ≤ n) ∧
    (∀ (st : σ) (acc : Int), acc < bufsz → (rstep st (bufsz - acc)).1 < 0 →
      ioread_full_loop rstep st bufsz acc = (rstep st (bufsz - acc)).1) ∧
    (∀ (st : σ) (acc : Int), acc < bufsz → (rstep st (bufsz - acc)).1 = 0 →
      ioread_full_loop rstep st bufsz acc = acc) ∧
    (∀ (st : τ) (acc : Int), acc < n → (wstep st (n - acc)).1 < 0 →
      iowrite_loop wstep st n acc = (wstep st (n - acc)).1) ∧
    (∀ (st : τ) (acc : Int), acc < n → (wstep st (n - acc)).1 = 0 →
      iowrite_loop wstep st n acc = acc) ∧
    ((∀ s m, 0 < m → 1 ≤ (rstep s m).1) → ioread_full (some rstep) s0 bufsz = bufsz) ∧
    ((∀ s m, 0 < m → 1 ≤ (wstep s m).1) → iowrite (some wstep) t0 n = n) := by
  refine ⟨rfl, rfl, ?_, ?_, ?_, ?_, ?_, ?_, ?_, ?_⟩
  · intro _
    exact ioread_full_loop_le rstep bufsz hr (bufsz - 0).toNat s0 0 le_rfl hb le_rfl
  · intro _
    show iowrite_loop wstep t0 n 0 ≤ n
    rw [iowrite_loop_eq_ioread_full_loop wstep n (n - 0).toNat t0 0 le_rfl]
    exact ioread_full_loop_le wstep n hw (n - 0).toNat t0 0 le_rfl hn le_rfl
  · intro st acc hlt hneg
    rw [ioread_full_loop, dif_pos hlt, dif_pos hneg]
  · intro st acc hlt hzero
    rw [ioread_full_loop, dif_pos hlt, dif_neg (by omega), dif_pos hzero]
  · intro st acc hlt hneg
    rw [iowrite_loop, dif_pos hlt, dif_pos hneg]
  · intro st acc hlt hzero
    rw [iowrite_loop, dif_pos hlt, dif_neg (by omega), dif_pos hzero]
  · intro hpos
    exact ioread_full_loop_full rstep bufsz hr hpos (bufsz - 0).toNat s0 0 le_rfl hb le_rfl
  · intro hpos
    show iowrite_loop wstep t0 n 0 = n
    rw [iowrite_loop_eq_ioread_full_loop wstep n (n - 0).toNat t0 0 le_rfl]
    exact ioread_full_loop_full wstep n hw hpos (n - 0).toNat t0 0 le_rfl hn le_rfl

/-- Witness for C7: backing reads of at most 3 bytes and writes of at most 2
bytes per call, with request sizes 7 and 5. -/
theorem claim_C7_witness :
    ioread_full none () (7 : Int) = -ENOTSUP ∧
    iowrite none () (5 : Int) = -ENOTSUP ∧
    (0 ≤ ioread_full (some (fun (s : Unit) m => (min 3 m, s))) () 7 →
      ioread_full (some (fun (s : Unit) m => (min 3 m, s))) () 7 ≤ 7) ∧
    (0 ≤ iowrite (some (fun (s : Unit) m => (min 2 m, s))) () 5 →
      iowrite (some (fun (s : Unit) m => (min 2 m, s))) () 5 ≤ 5) ∧
    (∀ (st : Unit) (acc : Int), acc < 7 → ((fun (s : Unit) m => (min 3 m, s)) st (7 - acc)).1 < 0 →
      ioread_full_loop (fun (s : Unit) m => (min 3 m, s)) st 7 acc = ((fun (s : Unit) m => (min 3 m, s)) st (7 - acc)).1) ∧
    (∀ (st : Unit) (acc : Int), acc < 7 → ((fun (s : Unit) m => (min 3 m, s)) st (7 - acc)).1 = 0 →
      ioread_full_loop (fun (s : Unit) m => (min 3 m, s)) st 7 acc = acc) ∧
    (∀ (st : Unit) (acc : Int), acc < 5 → ((fun (s : Unit) m => (min 2 m, s)) st (5 - acc)).1 < 0 →
      iowrite_loop (fun (s : Unit) m => (min 2 m, s)) st 5 acc = ((fun (s : Unit) m => (min 2 m, s)) st (5 - acc)).1) ∧
    (∀ (st : Unit) (acc : Int), acc < 5 → ((fun (s : Unit) m => (min 2 m, s)) st (5 - acc)).1 = 0 →
      iowrite_loop (fun (s : Unit) m => (min 2 m, s)) st 5 acc = acc) ∧
    ((∀ (s : Unit) (m : Int), 0 < m → 1 ≤ ((fun (s : Unit) m => (min 3 m, s)) s m).1) →
      ioread_full (some (fun (s : Unit) m => (min 3 m, s))) () 7 = 7) ∧
    ((∀ (s : Unit) (m : Int), 0 < m → 1 ≤ ((fun (s : Unit) m => (min 2 m, s)) s m).1) →
      iowrite (some (fun (s : Unit) m => (min 2 m, s))) () 5 = 5) :=
  claim_C7_io_helper_loops (fun (s : Unit) m => (min 3 m, s)) (fun (s : Unit) m => (min 2 m, s))
    () () 7 5 (by omega) (by omega)
    (fun s m hm => by simp)
    (fun s m hm => by simp)

/- ### Fork (`thread.c`: `thread_fork_to_user`) -/

/-- The outcome of `thread_fork_to_user` visible to the claim: the chosen
child slot, the value returned on the parent's execution path, the child's
`stack_base` (`child_kernel_stack_base - sizeof(struct thread_stack_anchor)`),
the address of the child's trap frame
(`(struct trap_frame *)(child->stack_base) - 1`), and the value the child's
execution path stores into the `a0` slot of that trap frame. -/
structure ForkOutcome where
  childTid : Nat
  parentRet : Int
  childStackBase : Int
  childTfrAddr : Int
  childA0 : Int
deriving Repr, DecidableEq

/-- `thread_fork_to_user` from `thread.c`. The free-slot search starts at
index 0 (`int child_tid = 0; while(child_tid < NTHR) ...`); `child_tid ==
NTHR` means `panic("Too many threads")` (`none`). `stackLowest` is the
`kmalloc(PAGE_SIZE)` result, `anchorSize` is
`sizeof(struct thread_stack_anchor)` and `tfrSize` is
`sizeof(struct trap_frame)` (sizes of structs declared in headers outside the
sources; both are positive). The child path writes `0` to `x[TFR_A0]` of the
trap frame below `stack_base`; the parent path returns `child_tid`. -/
def thread_fork_to_user (tab : Nat → Bool) (stackLowest anchorSize tfrSize : Int) :
    Option ForkOutcome :=
  let child_tid := scanFree tab 0 NTHR
  if child_tid = NTHR then none
  else
    some { childTid := child_tid,
           parentRet := (child_tid : Int),
           childStackBase := stackLowest + PAGE_SIZE - anchorSize,
           childTfrAddr := stackLowest + PAGE_SIZE - anchorSize - tfrSize,
           childA0 := 0 }

/-- C1: whenever `thread_fork_to_user` installs a child thread (slot 0 is
always occupied by the main thread and some slot is free), the parent path
returns the child's thread id, which is positive, and the child path
overwrites the `a0` slot of the trap frame lying immediately below the
child's `stack_base` with 0. -/
theorem claim_C1_fork_return_divergence (tab : Nat → Bool)
    (stackLowest anchorSize tfrSize : Int) (h0 : tab 0 = true)
    (tf : Nat) (htf : tf < NTHR) (hfree : tab tf = false) :
    ∃ o, thread_fork_to_user tab stackLowest anchorSize tfrSize = some o ∧
      o.parentRet = (o.childTid : Int) ∧
      0 < o.parentRet ∧
      o.childA0 = 0 ∧
      o.childTfrAddr = o.childStackBase - tfrSize := by
  have hex : scanFree tab 0 NTHR < 0 + NTHR :=
    scanFree_exists tab NTHR 0 tf (Nat.zero_le tf) (by omega) hfree
  have hne : scanFree tab 0 NTHR ≠ NTHR := by omega
  have hfound : tab (scanFree tab 0 NTHR) = false :=
    scanFree_found tab NTHR 0 (by omega)
  have hpos : 0 < scanFree tab 0 NTHR := by
    rcases Nat.eq_zero_or_pos (scanFree tab 0 NTHR) with hz | hp
    · rw [hz] at hfound
      rw [h0] at hfound
      exact absurd hfound (by simp)
    · exact hp
  have hfork : thread_fork_to_user tab stackLowest anchorSize tfrSize =
      some { childTid := scanFree tab 0 NTHR,
             parentRet := (scanFree tab 0 NTHR : Int),
             childStackBase := stackLowest + PAGE_SIZE - anchorSize,
             childTfrAddr := stackLowest + PAGE_SIZE - anchorSize - tfrSize,
             childA0 := 0 } := by
    unfold thread_fork_to_user
    simp only
    rw [if_neg hne]
  refine ⟨_, hfork, rfl, ?_, rfl, rfl⟩
  simp only
  exact_mod_cast hpos

/-- Witness for C1: only slot 0 occupied; the fork succeeds with a positive
child tid and a zeroed child `a0` trap-frame slot. -/
theorem claim_C1_witness :
    ∃ o, thread_fork_to_user (fun t => t = 0) 0x80000000 16 288 = some o ∧
      o.parentRet = (o.childTid : Int) ∧
      0 < o.parentRet ∧
      o.childA0 = 0 ∧
      o.childTfrAddr = o.childStackBase - 288 :=
  claim_C1_fork_return_divergence (fun t => t = 0) 0x80000000 16 288 (by decide)
    1 (by decide) (by decide)

/- ### Kernel stack allocation and release (C5) -/

/-- The `stack_base` that `thread_spawn` in `thread.c` records for a new
thread: `stack_anchor = stack_page + PAGE_SIZE; stack_anchor -= 1;
child->stack_base = stack_anchor;`, i.e. the allocated page address plus
`PAGE_SIZE` minus `sizeof(struct thread_stack_anchor)`. -/
def spawn_stack_base (stack_page anchorSize : Int) : Int :=
  stack_page + PAGE_SIZE - anchorSize

/-- The address `suspend_self` in `thread.c` passes to `memory_free_page`
when the displaced thread is `EXITED`: `prev_thread->stack_base - PAGE_SIZE`. -/
def suspend_freed_addr (stack_base : Int) : Int :=
  stack_base - PAGE_SIZE

/-- C5 fails on the code: for a thread spawned with its stack page allocated
at `0x80000000` and a 16-byte stack anchor (a back-pointer plus a reserved
word), `suspend_self` passes `stack_base - PAGE_SIZE = 0x80000000 - 16` to
`memory_free_page`, which is not the address `0x80000000` that
`memory_alloc_page` returned — it is `sizeof(struct thread_stack_anchor)`
bytes below the allocated page. -/
theorem claim_C5_stack_free_mismatch :
    spawn_stack_base 0x80000000 16 = 0x80000000 + PAGE_SIZE - 16 ∧
    suspend_freed_addr (spawn_stack_base 0x80000000 16) = 0x80000000 - 16 ∧
    suspend_freed_addr (spawn_stack_base 0x80000000 16) ≠ 0x80000000 := by
  refine ⟨rfl, by decide, by decide⟩

/- ### Thread recycling (`thread.c`: `recycle_thread`) -/

/-- The per-slot content of `thrtab` that `recycle_thread` inspects: the
thread's parent pointer (as a slot index, `none` = `NULL`) and its state. -/
structure ThreadRec where
  parent : Option Nat
  state : TState
deriving Repr, DecidableEq

/-- `recycle_thread` from `thread.c`. `assert (0 < tid && tid < NTHR && thr
!= NULL)` and `assert (thr->state == THREAD_EXITED)` become `none`; the loop
`for (ctid = 1; ctid < NTHR; ctid++)` re-parents every child of the recycled
thread to the recycled thread's parent; finally `thrtab[tid] = NULL`. -/
def recycle_thread (tab : Nat → Option ThreadRec) (tid : Nat) :
    Option (Nat → Option ThreadRec) :=
  match tab tid with
  | none => none
  | some thr =>
    if 0 < tid ∧ tid < NTHR ∧ thr.state = TState.EXITED then
      some (upd (fun c =>
        if 1 ≤ c ∧ c < NTHR then
          match tab c with
          | some ct =>
            if ct.parent = some tid then some { ct with parent := thr.parent }
            else some ct
          | none => none
        else tab c) tid none)
    else none

/-- C9: after `recycle_thread tid` succeeds on a table whose entries beyond
`NTHR` are empty and whose slot 0 (the main thread, whose parent is `NULL`)
is not a child of `tid`: every former child of `tid` has its parent replaced
by `tid`'s parent, slot `tid` is `NULL`, and all other slots and parent
fields are unchanged. -/
theorem claim_C9_recycle_reparent (tab : Nat → Option ThreadRec) (tid : Nat)
    (thr : ThreadRec) (htab : tab tid = some thr) (h0 : 0 < tid) (hN : tid < NTHR)
    (hex : thr.state = TState.EXITED)
    (hhigh : ∀ c, NTHR ≤ c → tab c = none)
    (hslot0 : ∀ t0, tab 0 = some t0 → t0.parent ≠ some tid) :
    ∃ tab', recycle_thread tab tid = some tab' ∧
      tab' tid = none ∧
      (∀ c ct, c ≠ tid → tab c = some ct → ct.parent = some tid →
        tab' c = some { ct with parent := thr.parent }) ∧
      (∀ c ct, c ≠ tid → tab c = some ct → ct.parent ≠ some tid →
        tab' c = some ct) ∧
      (∀ c, c ≠ tid → tab c = none → tab' c = none) := by
  have hrec : recycle_thread tab tid = some (upd (fun c =>
      if 1 ≤ c ∧ c < NTHR then
        match tab c with
        | some ct =>
          if ct.parent = some tid then some { ct with parent := thr.parent }
          else some ct
        | none => none
      else tab c) tid none) := by
    unfold recycle_thread
    rw [htab]
    simp only
    rw [if_pos ⟨h0, hN, hex⟩]
  refine ⟨_, hrec, ?_, ?_, ?_, ?_⟩
  · rw [upd_same]
  · intro c ct hctid hc hcp
    rw [upd_ne _ _ _ hctid]
    have hrange : 1 ≤ c ∧ c < NTHR := by
      constructor
      · rcases Nat.eq_zero_or_pos c with hz | hp
        · exfalso
          rw [hz] at hc
          exact hslot0 ct hc hcp
        · exact hp
      · by_contra hge
        rw [hhigh c (by omega)] at hc
        exact absurd hc (by simp)
    rw [if_pos hrange, hc]
    simp only
    rw [if_pos hcp]
  · intro c ct hctid hc hcp
    rw [upd_ne _ _ _ hctid]
    by_cases hrange : 1 ≤ c ∧ c < NTHR
    · rw [if_pos hrange, hc]
      simp only
      rw [if_neg hcp]
    · rw [if_neg hrange]
      exact hc
  · intro c hctid hc
    rw [upd_ne _ _ _ hctid]
    by_cases hrange : 1 ≤ c ∧ c < NTHR
    · rw [if_pos hrange, hc]
    · rw [if_neg hrange]
      exact hc

/-- A concrete thread table: main thread at slot 0, an `EXITED` thread at
slot 2 whose parent is slot 0, a child of slot 2 at slot 3, and an unrelated
thread at slot 4. -/
def recycleTab : Nat → Option ThreadRec := fun c =>
  if c = 0 then some ⟨none, TState.RUNNING⟩
  else if c = 2 then some ⟨some 0, TState.EXITED⟩
  else if c = 3 then some ⟨some 2, TState.READY⟩
  else if c = 4 then some ⟨some 0, TState.READY⟩
  else none

/-- Witness for C9: recycling slot 2 of `recycleTab` re-parents slot 3 to
slot 0, clears slot 2, and leaves slots 0 and 4 unchanged. -/
theorem claim_C9_witness :
    ∃ tab', recycle_thread recycleTab 2 = some tab' ∧
      tab' 2 = none ∧
      (∀ c ct, c ≠ 2 → recycleTab c = some ct → ct.parent = some 2 →
        tab' c = some { ct with parent := some 0 }) ∧
      (∀ c ct, c ≠ 2 → recycleTab c = some ct → ct.parent ≠ some 2 →
        tab' c = some ct) ∧
      (∀ c, c ≠ 2 → recycleTab c = none → tab' c = none) :=
  claim_C9_recycle_reparent recycleTab 2 ⟨some 0, TState.EXITED⟩ (by decide)
    (by decide) (by decide) (by decide)
    (fun c hc => by
      have hc' : 16 ≤ c := by simpa [NTHR] using hc
      unfold recycleTab
      rw [if_neg (by omega), if_neg (by omega), if_neg (by omega), if_neg (by omega)])
    (fun t0 ht0 => by
      unfold recycleTab at ht0
      rw [if_pos rfl] at ht0
      cases ht0
      simp)

/- ### Range assertion of `thread_process` / `thread_set_process` /
`thread_name` (C10) -/

/-- The asserted expression `0 <= tid || tid < NTHR` appearing in
`thread_process`, `thread_set_process`, and `thread_name` in `thread.c`
(`tid` is a C `int`). -/
def tid_range_assert (tid : Int) : Bool :=
  decide (0 ≤ tid) || decide (tid < (NTHR : Int))

/-- C10: the asserted disjunction `0 <= tid || tid < NTHR` is a tautology
over the integers — every `tid`, including out-of-range ones, passes the
assertion, so `thrtab` is indexed without any effective range check. -/
theorem claim_C10_assert_tautology (tid : Int) : tid_range_assert tid = true := by
  unfold tid_range_assert
  simp only [Bool.or_eq_true, decide_eq_true_eq]
  by_cases h : 0 ≤ tid
  · exact Or.inl h
  · refine Or.inr ?_
    have : (NTHR : Int) = 16 := by norm_num [NTHR]
    omega

/- ### C3: `io_lit_read` / `io_lit_write` return value -/

/-- C3 fails on the code: for an `io_lit` of size 4 at position 0 and a
2-byte read, `io_lit_read` transfers `min(bufsz, size - pos) = 2` bytes and
advances the position by 2, but returns 0— not the 2 bytes transferred that
the spec requires; likewise `io_lit_write` transfers 2 bytes and returns 0. -/
theorem claim_C3_lit_returns_zero :
    (io_lit_read ⟨[10, 20, 30, 40], 4, 0⟩ 2).1 = 0 ∧
    (io_lit_read ⟨[10, 20, 30, 40], 4, 0⟩ 2).2.1 = [10, 20] ∧
    (io_lit_read ⟨[10, 20, 30, 40], 4, 0⟩ 2).2.2.pos = 2 ∧
    (io_lit_read ⟨[10, 20, 30, 40], 4, 0⟩ 2).1 ≠ 2 ∧
    (io_lit_write ⟨[10, 20, 30, 40], 4, 0⟩ [7, 8] 2).1 = 0 ∧
    (io_lit_write ⟨[10, 20, 30, 40], 4, 0⟩ [7, 8] 2).2.1 = 2 ∧
    (io_lit_write ⟨[10, 20, 30, 40], 4, 0⟩ [7, 8] 2).2.2.buf = [7, 8, 30, 40] ∧
    (io_lit_write ⟨[10, 20, 30, 40], 4, 0⟩ [7, 8] 2).1 ≠ 2 := by
  decide

/- ### C8: `io_lit_ioctl` with `IOCTL_SETPOS` -/

/-- C8 counterexample: on an `io_lit` of size 4 at position 1, `IOCTL_SETPOS`
with argument 10 (greater than the size) returns 0 — not `-EINVAL` — and
stores the out-of-range position. -/
theorem claim_C8_counterexample :
    (io_lit_ioctl ⟨[0, 0, 0, 0], 4, 1⟩ (IoctlCmd.SETPOS 10)).1 = 0 ∧
    (io_lit_ioctl ⟨[0, 0, 0, 0], 4, 1⟩ (IoctlCmd.SETPOS 10)).1 ≠ -EINVAL ∧
    (io_lit_ioctl ⟨[0, 0, 0, 0], 4, 1⟩ (IoctlCmd.SETPOS 10)).2.2.pos = 10 := by
  decide

/-- C8 amended: `io_lit_ioctl` with `IOCTL_SETPOS` performs no range check:
it stores the argument position unconditionally — even one greater than
`size` — and returns 0; the out-of-range position instead causes the next
`io_lit_read` (or `io_lit_write`) to fail with `-EINVAL`. -/
theorem claim_C8_setpos_unchecked (lit : IoLit) (p : Nat) (hp : p > lit.size) :
    (io_lit_ioctl lit (IoctlCmd.SETPOS p)).1 = 0 ∧
    (io_lit_ioctl lit (IoctlCmd.SETPOS p)).2.2.pos = p ∧
    (∀ bufsz, (io_lit_read (io_lit_ioctl lit (IoctlCmd.SETPOS p)).2.2 bufsz).1 = -EINVAL) ∧
    (∀ data n, (io_lit_write (io_lit_ioctl lit (IoctlCmd.SETPOS p)).2.2 data n).1 = -EINVAL) := by
  refine ⟨rfl, rfl, ?_, ?_⟩
  · intro bufsz
    unfold io_lit_ioctl io_lit_read
    simp only
    rw [if_pos (by simp; omega)]
  · intro data n
    unfold io_lit_ioctl io_lit_write
    simp only
    rw [if_pos (by simp; omega)]

/-- Witness for the amended C8: size-2 literal, `SETPOS 9` stores 9, returns
0, and any subsequent read or write fails with `-EINVAL`. -/
theorem claim_C8_witness :
    (io_lit_ioctl ⟨[5, 6], 2, 0⟩ (IoctlCmd.SETPOS 9)).1 = 0 ∧
    (io_lit_ioctl ⟨[5, 6], 2, 0⟩ (IoctlCmd.SETPOS 9)).2.2.pos = 9 ∧
    (∀ bufsz, (io_lit_read (io_lit_ioctl ⟨[5, 6], 2, 0⟩ (IoctlCmd.SETPOS 9)).2.2 bufsz).1 = -EINVAL) ∧
    (∀ data n, (io_lit_write (io_lit_ioctl ⟨[5, 6], 2, 0⟩ (IoctlCmd.SETPOS 9)).2.2 data n).1 = -EINVAL) :=
  claim_C8_setpos_unchecked ⟨[5, 6], 2, 0⟩ 9 (by decide)
